import Mathlib

/-!
Shallow embedding of the `eventstorage` package (tail-based-sampling event
storage for apm-server): `Storage`, `ReadWriter` and their operations, built
over a model of the badger key-value engine.

Engine model.  The badger database is an association list of committed
entries together with the engine-reported `lsm`/`vlog` sizes.  Badger's size
accounting is asynchronous (a background ticker), so the sizes are
independent fields of the engine state, not derived from the committed
contents, and commits do not change them.  A transaction is the ordered list
of its buffered operations; a read inside a transaction sees the latest
buffered operation for a key, falling back to the committed store
(read-your-own-writes, as badger's managed transactions provide).  Whether
`SetEntry` fails with `ErrTxnTooBig` is decided by the engine from the
transaction's size; the model exposes this as the engine parameter
`maxTxnOps` (the number of operations a transaction can hold; `none` means
no transaction ever becomes too big).  Whether `Commit` fails is likewise
an engine-side outcome, exposed as the boolean `commitFails`.
-/

namespace EventStorage

/-- Go byte strings (`[]byte` / `string`), modelled as lists of bytes. -/
abbrev Bytes := List Nat

/-- Entry meta byte for a sampled-trace decision (ASCII 's'). -/
def entryMetaTraceSampled : Nat := 115

/-- Entry meta byte for an unsampled-trace decision (ASCII 'u'). -/
def entryMetaTraceUnsampled : Nat := 117

/-- Entry meta byte for a trace event (ASCII 'e'). -/
def entryMetaTraceEvent : Nat := 101

/-- The separator byte written between trace ID and event ID (ASCII colon),
from `append(append([]byte(traceID), ':'), id...)`. -/
def eventKeySeparator : Nat := 58

/-- Errors surfaced by the storage layer and the engine model.
`flushWrap e` models `fmt.Errorf("flush pending writes: %w", e)`;
`notFound` is the package's `ErrNotFound`, `limitReached` its
`ErrLimitReached`; `keyNotFound` and `txnTooBig` are badger's
`ErrKeyNotFound` and `ErrTxnTooBig`; `commitFailed` stands for an
engine-side commit error; `codec s` is an error propagated from the codec. -/
inductive Err : Type where
  | keyNotFound : Err
  | notFound : Err
  | limitReached : Err
  | txnTooBig : Err
  | commitFailed : Err
  | flushWrap : Err → Err
  | codec : String → Err
deriving DecidableEq

/-- A stored entry: value bytes, meta byte, TTL, and whether the engine
considers it deleted or expired (`Item.IsDeletedOrExpired`). -/
structure Item : Type where
  value : Bytes
  meta : Nat
  ttl : Int
  expired : Bool
deriving DecidableEq

/-- A buffered transaction operation: `txn.SetEntry` or `txn.Delete`. -/
inductive PendingOp : Type where
  | setEntry : Bytes → Bytes → Nat → Int → PendingOp
  | delete : Bytes → PendingOp
deriving DecidableEq

/-- The key a buffered operation refers to. -/
def PendingOp.key : PendingOp → Bytes
  | .setEntry k _ _ _ => k
  | .delete k => k

/-- The badger database: committed entries, reported lsm/vlog sizes, and the
engine-side outcome parameters (see the module docstring). -/
structure DB : Type where
  committed : List (Bytes × Item)
  lsm : Int
  vlog : Int
  commitFails : Bool
  maxTxnOps : Option Nat

/-- A badger transaction: the ordered list of buffered operations. -/
structure Txn : Type where
  pending : List PendingOp
deriving DecidableEq

/-- Lookup in the committed store (keys are unique by construction). -/
def lookupCommitted : List (Bytes × Item) → Bytes → Option Item
  | [], _ => none
  | (k', it) :: rest, k => if k' = k then some it else lookupCommitted rest k

/-- The latest buffered operation of the transaction for a key, if any. -/
def Txn.lastPendingFor (t : Txn) (k : Bytes) : Option PendingOp :=
  t.pending.reverse.find? (fun op => op.key == k)

/-- `txn.SetEntry(e)`: rejected with `ErrTxnTooBig` when the transaction
already holds `maxTxnOps` operations, otherwise buffers the write. -/
def Txn.setEntry (db : DB) (t : Txn) (key value : Bytes) (meta : Nat) (ttl : Int) :
    Except Err Txn :=
  match db.maxTxnOps with
  | some m =>
    if m ≤ t.pending.length then .error .txnTooBig
    else .ok ⟨t.pending ++ [.setEntry key value meta ttl]⟩
  | none => .ok ⟨t.pending ++ [.setEntry key value meta ttl]⟩

/-- `txn.Delete(key)`: rejected with `ErrTxnTooBig` when the transaction
already holds `maxTxnOps` operations, otherwise buffers the deletion. -/
def Txn.deleteKey (db : DB) (t : Txn) (key : Bytes) : Except Err Txn :=
  match db.maxTxnOps with
  | some m =>
    if m ≤ t.pending.length then .error .txnTooBig
    else .ok ⟨t.pending ++ [.delete key]⟩
  | none => .ok ⟨t.pending ++ [.delete key]⟩

/-- `txn.Get(key)`: sees the transaction's own buffered writes first, then
the committed store; deleted or expired entries read as `ErrKeyNotFound`. -/
def Txn.get (db : DB) (t : Txn) (key : Bytes) : Except Err Item :=
  match t.lastPendingFor key with
  | some (.setEntry _ v m ttl) => .ok ⟨v, m, ttl, false⟩
  | some (.delete _) => .error .keyNotFound
  | none =>
    match lookupCommitted db.committed key with
    | some it => if it.expired then .error .keyNotFound else .ok it
    | none => .error .keyNotFound

/-- Remove a key from the committed store. -/
def eraseCommitted (l : List (Bytes × Item)) (k : Bytes) : List (Bytes × Item) :=
  l.filter (fun p => !(p.1 == k))

/-- Apply one buffered operation to the committed store (upsert / delete). -/
def applyOp (l : List (Bytes × Item)) : PendingOp → List (Bytes × Item)
  | .setEntry k v m ttl => (k, ⟨v, m, ttl, false⟩) :: eraseCommitted l k
  | .delete k => eraseCommitted l k

/-- `txn.Commit()`: fails (dropping the buffered writes) when the engine
reports a commit error, otherwise applies the buffered operations in order. -/
def DB.commitTxn (db : DB) (t : Txn) : Except Err DB :=
  if db.commitFails then .error .commitFailed
  else .ok { db with committed := t.pending.foldl applyOp db.committed }

/-- The merged item an iterator sees under a key: the transaction's latest
buffered write wins over the committed store; a buffered deletion shows as
an entry with `IsDeletedOrExpired` true. -/
def mergedGet (db : DB) (t : Txn) (k : Bytes) : Option Item :=
  match t.lastPendingFor k with
  | some (.setEntry _ v m ttl) => some ⟨v, m, ttl, false⟩
  | some (.delete _) => some ⟨[], 0, 0, true⟩
  | none => lookupCommitted db.committed k

/-- Strict lexicographic (byte-wise) order on keys, badger's key order. -/
def lexLt : Bytes → Bytes → Bool
  | [], [] => false
  | [], _ :: _ => true
  | _ :: _, [] => false
  | a :: as, b :: bs => if a < b then true else if b < a then false else lexLt as bs

/-- Insert a key into a sorted key list (insertion sort step). -/
def insertByLt (x : Bytes) : List Bytes → List Bytes
  | [] => [x]
  | y :: ys => if lexLt x y then x :: y :: ys else y :: insertByLt x ys

/-- Sort keys in badger's lexicographic key order. -/
def sortKeys : List Bytes → List Bytes
  | [] => []
  | x :: xs => insertByLt x (sortKeys xs)

/-- The keys an iterator with the given prefix visits, in key order: every
key of the transaction's buffered operations or of the committed store that
starts with the prefix, each once. -/
def iterKeys (db : DB) (t : Txn) (pfx : Bytes) : List Bytes :=
  sortKeys (((t.pending.map PendingOp.key ++ db.committed.map Prod.fst).dedup).filter
    (fun k => pfx.isPrefixOf k))

/-- The codec collaborator: `EncodeEvent` / `DecodeEvent`.  The event type
is the type parameter `α` (standing for `model.APMEvent`); payloads are
opaque bytes. -/
structure Codec (α : Type) : Type where
  decodeEvent : Bytes → Except String α
  encodeEvent : α → Except String Bytes

/-- `Storage`: engine handle, codec, TTL and the effective byte limit. -/
structure Storage (α : Type) : Type where
  db : DB
  codec : Codec α
  ttl : Int
  limit : Int

variable {α : Type}

/-- `New(db, codec, ttl, limit)`.  The Go source computes the effective
limit as `int64(float64(limit) * storageLimitThreshold)` with
`storageLimitThreshold = 0.90` when `limit > 1`.  For the `int64` limits in
use (below `2^50`, far under float64's exact-integer range) that float64
computation truncates to `limit * 9 / 10` rounded toward zero, which is how
it is embedded here. -/
def New (db : DB) (codec : Codec α) (ttl : Int) (limit : Int) : Storage α :=
  { db := db, codec := codec, ttl := ttl,
    limit := if 1 < limit then limit * 9 / 10 else limit }

/-- `Storage.limitReached`: false when no limit is configured, otherwise
compares the engine's reported size `lsm + vlog` against the limit. -/
def Storage.limitReached (s : Storage α) : Bool :=
  if s.limit = 0 then false
  else decide (s.limit ≤ s.db.lsm + s.db.vlog)

/-- `ReadWriter`: the storage handle, one open transaction, the reusable
read key buffer, and the pending-write counter. -/
structure ReadWriter (α : Type) : Type where
  s : Storage α
  txn : Txn
  readKeyBuf : Bytes
  pendingWrites : Nat

/-- `Storage.NewReadWriter()`: a fresh ReadWriter with a new transaction. -/
def Storage.NewReadWriter (s : Storage α) : ReadWriter α :=
  { s := s, txn := ⟨[]⟩, readKeyBuf := [], pendingWrites := 0 }

/-- `ReadWriter.Flush()`: returns the wrapped `ErrLimitReached` without
committing when the storage limit is reached; otherwise commits, opens a
new transaction and resets the pending-write counter (also when the commit
itself failed, in which case the wrapped commit error is returned). -/
def ReadWriter.Flush (rw : ReadWriter α) : Except Err Unit × ReadWriter α :=
  if rw.s.limitReached then
    (.error (.flushWrap .limitReached), rw)
  else
    match rw.s.db.commitTxn rw.txn with
    | .ok db' =>
      (.ok (), { rw with s := { rw.s with db := db' }, txn := ⟨[]⟩, pendingWrites := 0 })
    | .error e =>
      (.error (.flushWrap e), { rw with txn := ⟨[]⟩, pendingWrites := 0 })

/-- Ghost instrumentation for `writeEntry`: how many times `txn.SetEntry`
was attempted and how many times `Flush` was called during one call.  It
records what the call did and has no effect on behaviour. -/
structure WriteStats : Type where
  setEntryAttempts : Nat
  flushCalls : Nat
deriving DecidableEq

/-- The tail of `writeEntry` after the initial `SetEntry` attempt, whose
outcome is `err1` (`none` on success).  Mirrors the Go control flow: flush
when 200 or more writes are pending (returning that flush's error if it
fails); then return `err1` unless it is `ErrTxnTooBig`, in which case flush
and retry the single entry once, returning the retry's outcome. -/
def ReadWriter.writeEntryRest (rw : ReadWriter α) (err1 : Option Err)
    (key value : Bytes) (meta : Nat) (ttl : Int) :
    Except Err Unit × ReadWriter α × WriteStats :=
  let auto : Option Err × ReadWriter α × Nat :=
    if 200 ≤ rw.pendingWrites then
      match rw.Flush with
      | (.error e, rw') => (some e, rw', 1)
      | (.ok _, rw') => (none, rw', 1)
    else (none, rw, 0)
  match auto with
  | (some e, rw', n) => (.error e, rw', ⟨1, n⟩)
  | (none, rw', n) =>
    match err1 with
    | none => (.ok (), rw', ⟨1, n⟩)
    | some e =>
      if e = .txnTooBig then
        match rw'.Flush with
        | (.error e2, rw'') => (.error e2, rw'', ⟨1, n + 1⟩)
        | (.ok _, rw'') =>
          match rw''.txn.setEntry rw''.s.db key value meta ttl with
          | .ok txn' => (.ok (), { rw'' with txn := txn' }, ⟨2, n + 1⟩)
          | .error e3 => (.error e3, rw'', ⟨2, n + 1⟩)
      else (.error e, rw', ⟨1, n⟩)

/-- `ReadWriter.writeEntry(e)`: increments the pending-write counter,
attempts `txn.SetEntry`, then proceeds as `writeEntryRest`. -/
def ReadWriter.writeEntry (rw : ReadWriter α) (key value : Bytes) (meta : Nat) (ttl : Int) :
    Except Err Unit × ReadWriter α × WriteStats :=
  let rw1 : ReadWriter α := { rw with pendingWrites := rw.pendingWrites + 1 }
  match rw1.txn.setEntry rw1.s.db key value meta ttl with
  | .ok txn' => ReadWriter.writeEntryRest { rw1 with txn := txn' } none key value meta ttl
  | .error e => ReadWriter.writeEntryRest rw1 (some e) key value meta ttl

/-- `ReadWriter.WriteTraceSampled(traceID, sampled)`: records the sampling
decision under the raw trace-ID key with the decision meta byte. -/
def ReadWriter.WriteTraceSampled (rw : ReadWriter α) (traceID : Bytes) (sampled : Bool) :
    Except Err Unit × ReadWriter α × WriteStats :=
  let meta := if sampled then entryMetaTraceSampled else entryMetaTraceUnsampled
  rw.writeEntry traceID [] meta rw.s.ttl

/-- `ReadWriter.IsTraceSampled(traceID)`: point lookup on the raw trace-ID
key; a lookup miss is translated to `ErrNotFound`. -/
def ReadWriter.IsTraceSampled (rw : ReadWriter α) (traceID : Bytes) :
    Except Err Bool × ReadWriter α :=
  let rw' : ReadWriter α := { rw with readKeyBuf := traceID }
  match rw'.txn.get rw'.s.db rw'.readKeyBuf with
  | .error .keyNotFound => (.error .notFound, rw')
  | .error e => (.error e, rw')
  | .ok item => (.ok (item.meta == entryMetaTraceSampled), rw')

/-- The composite event key `traceID + ':' + id`. -/
def eventKey (traceID id : Bytes) : Bytes := traceID ++ [eventKeySeparator] ++ id

/-- `ReadWriter.WriteTraceEvent(traceID, id, event)`: encodes the event,
then writes it under the composite key with the event meta byte. -/
def ReadWriter.WriteTraceEvent (rw : ReadWriter α) (traceID id : Bytes) (event : α) :
    Except Err Unit × ReadWriter α × WriteStats :=
  match rw.s.codec.encodeEvent event with
  | .error e => (.error (.codec e), rw, ⟨0, 0⟩)
  | .ok data => rw.writeEntry (eventKey traceID id) data entryMetaTraceEvent rw.s.ttl

/-- `ReadWriter.DeleteTraceEvent(traceID, id)`: marks the composite key for
deletion in the current transaction. -/
def ReadWriter.DeleteTraceEvent (rw : ReadWriter α) (traceID id : Bytes) :
    Except Err Unit × ReadWriter α :=
  match rw.txn.deleteKey rw.s.db (eventKey traceID id) with
  | .ok txn' => (.ok (), { rw with txn := txn' })
  | .error e => (.error e, rw)

/-- The iteration loop of `ReadTraceEvents`: skip deleted-or-expired items
and items whose meta byte is not the event tag, decode the rest, appending
each decoded event to `out`; a decode error stops the loop and is returned
with the events appended so far. -/
def readEventsLoop (codec : Codec α) : List Item → List α → Except Err Unit × List α
  | [], out => (.ok (), out)
  | it :: rest, out =>
    if it.expired then readEventsLoop codec rest out
    else if it.meta = entryMetaTraceEvent then
      match codec.decodeEvent it.value with
      | .error e => (.error (.codec e), out)
      | .ok ev => readEventsLoop codec rest (out ++ [ev])
    else readEventsLoop codec rest out

/-- `ReadWriter.ReadTraceEvents(traceID, out)`: prefix scan over
`traceID + ':'`, in key order, through the iteration loop. -/
def ReadWriter.ReadTraceEvents (rw : ReadWriter α) (traceID : Bytes) (out : List α) :
    Except Err Unit × List α × ReadWriter α :=
  let pfx : Bytes := traceID ++ [eventKeySeparator]
  let rw' : ReadWriter α := { rw with readKeyBuf := pfx }
  let items := (iterKeys rw'.s.db rw'.txn pfx).filterMap (mergedGet rw'.s.db rw'.txn)
  let r := readEventsLoop rw'.s.codec items out
  (r.1, r.2, rw')

/-- Iterated `DeleteTraceEvent`: perform each deletion in turn on the
resulting ReadWriter, regardless of the returned errors. -/
def applyDeletes (rw : ReadWriter α) : List (Bytes × Bytes) → ReadWriter α
  | [] => rw
  | (t, i) :: rest => applyDeletes (rw.DeleteTraceEvent t i).2 rest

/-- A concrete codec over `Nat` events for concrete evaluations: an event
`n` encodes to the single-byte payload `[n]`. -/
def natCodec : Codec Nat where
  decodeEvent := fun b =>
    match b with
    | [n] => .ok n
    | _ => .error "invalid payload"
  encodeEvent := fun n => .ok [n]

/-- A fresh engine state: nothing committed, given reported sizes, commits
succeed, and transaction capacity `maxOps`. -/
def freshDB (lsm vlog : Int) (maxOps : Option Nat) : DB :=
  { committed := [], lsm := lsm, vlog := vlog, commitFails := false, maxTxnOps := maxOps }



variable {α : Type}

/-! Helper lemmas about the engine model and the writer operations. -/

/-- When the limit is not reached and the engine commit succeeds, `Flush`
commits the buffered operations, opens a fresh transaction and resets the
pending-write counter. -/
theorem flush_ok (rw : ReadWriter α) (hq : rw.s.limitReached = false)
    (hc : rw.s.db.commitFails = false) :
    rw.Flush = (.ok (), { rw with
      s := { rw.s with db := { rw.s.db with
        committed := rw.txn.pending.foldl applyOp rw.s.db.committed } },
      txn := ⟨[]⟩, pendingWrites := 0 }) := by
  simp [ReadWriter.Flush, hq, DB.commitTxn, hc]

/-- A successful `Flush` always leaves the pending-write counter at zero. -/
theorem flush_ok_pending (rw : ReadWriter α) (h : (rw.Flush).1 = .ok ()) :
    (rw.Flush).2.pendingWrites = 0 := by
  unfold ReadWriter.Flush at *
  split at h
  · simp at h
  · revert h
    split <;> simp_all

/-- The latest buffered operation after appending one operation. -/
theorem lastPendingFor_concat (ops : List PendingOp) (op : PendingOp) (k : Bytes) :
    Txn.lastPendingFor ⟨ops ++ [op]⟩ k =
      if op.key == k then some op else Txn.lastPendingFor ⟨ops⟩ k := by
  by_cases h : op.key == k <;> simp [Txn.lastPendingFor, List.find?, h]

/-- Committing buffered operations ending in a set makes that set's entry
the committed entry for its key. -/
theorem lookup_foldl_concat_set (l : List (Bytes × Item)) (ops : List PendingOp)
    (k v : Bytes) (m : Nat) (ttl : Int) :
    lookupCommitted ((ops ++ [PendingOp.setEntry k v m ttl]).foldl applyOp l) k =
      some ⟨v, m, ttl, false⟩ := by
  rw [List.foldl_append]
  simp [applyOp, lookupCommitted]

/-- A write below the auto-flush threshold whose `SetEntry` is accepted
just buffers the entry and bumps the pending-write counter. -/
theorem writeEntry_ok_small (rw : ReadWriter α) (key value : Bytes) (meta : Nat)
    (ttl : Int) (txn' : Txn)
    (hset : rw.txn.setEntry rw.s.db key value meta ttl = .ok txn')
    (hcnt : rw.pendingWrites + 1 < 200) :
    rw.writeEntry key value meta ttl =
      (.ok (), { rw with txn := txn', pendingWrites := rw.pendingWrites + 1 }, ⟨1, 0⟩) := by
  simp [ReadWriter.writeEntry, hset, ReadWriter.writeEntryRest, Nat.not_le.mpr hcnt]

/-- A successful `Flush` leaves the pending-write counter at zero. -/
theorem flush_pair_ok_pending (rw rwF : ReadWriter α) (h : rw.Flush = (.ok (), rwF)) :
    rwF.pendingWrites = 0 := by
  unfold ReadWriter.Flush at h
  split at h
  · simp at h
  · revert h
    split <;> intro h
    · simp only [Prod.mk.injEq] at h
      rw [← h.2]
    · simp at h

/-- A `writeEntryRest` that returns success either never flushed (counter
kept, still below the threshold) or left the counter at zero. -/
theorem writeEntryRest_ok_pending (rw : ReadWriter α) (err1 : Option Err)
    (key value : Bytes) (meta : Nat) (ttl : Int)
    (h : (rw.writeEntryRest err1 key value meta ttl).1 = .ok ()) :
    ((rw.writeEntryRest err1 key value meta ttl).2.1.pendingWrites = rw.pendingWrites ∧
      rw.pendingWrites < 200) ∨
    (rw.writeEntryRest err1 key value meta ttl).2.1.pendingWrites = 0 := by
  rcases hF : rw.Flush with ⟨r, rwF⟩
  unfold ReadWriter.writeEntryRest at h ⊢
  rw [hF] at h ⊢
  by_cases hauto : 200 ≤ rw.pendingWrites
  · simp only [if_pos hauto] at h ⊢
    cases r with
    | error e => simp at h
    | ok u =>
      cases u
      have h0 : rwF.pendingWrites = 0 := flush_pair_ok_pending rw rwF hF
      cases err1 with
      | none => simp_all
      | some e =>
        by_cases he : e = Err.txnTooBig
        · simp only [he, if_pos rfl, eq_self_iff_true, if_true] at h ⊢
          rcases hF2 : rwF.Flush with ⟨r2, rwF2⟩
          cases r2 with
          | error e2 =>
            rw [hF2] at h
            simp at h
          | ok u2 =>
            cases u2
            have h20 : rwF2.pendingWrites = 0 := flush_pair_ok_pending rwF rwF2 hF2
            rcases hS : rwF2.txn.setEntry rwF2.s.db key value meta ttl with e3 | txn' <;>
              simp_all
        · simp only [if_neg he] at h ⊢
          simp at h
  · simp only [if_neg hauto] at h ⊢
    cases err1 with
    | none => simp_all [Nat.lt_of_not_le hauto]
    | some e =>
      by_cases he : e = Err.txnTooBig
      · simp only [he, if_pos rfl, eq_self_iff_true, if_true] at h ⊢
        rcases hF2 : rw.Flush with ⟨r2, rwF2⟩
        cases r2 with
        | error e2 =>
          rw [hF2] at h
          simp at h
        | ok u2 =>
          cases u2
          have h20 : rwF2.pendingWrites = 0 := flush_pair_ok_pending rw rwF2 hF2
          rcases hS : rwF2.txn.setEntry rwF2.s.db key value meta ttl with e3 | txn' <;>
            simp_all
      · simp only [if_neg he] at h ⊢
        simp at h


/-- On a commit error, `Flush` still opens a fresh transaction and resets
the counter, returning the wrapped commit error. -/
theorem flush_commit_error_lemma (rw : ReadWriter α)
    (hq : rw.s.limitReached = false) (hc : rw.s.db.commitFails = true) :
    rw.Flush = (.error (.flushWrap .commitFailed),
      { rw with txn := ⟨[]⟩, pendingWrites := 0 }) := by
  simp [ReadWriter.Flush, hq, DB.commitTxn, hc]

/-! Claim theorems. -/

/-- C1: `Flush` returns the wrapped quota-exceeded error without committing
the current transaction exactly when the configured limit is non-zero and
the engine's reported size `lsm + vlog` is at or above the effective limit
(that is, exactly when `limitReached` holds); otherwise (with the engine
commit succeeding) it commits the current transaction, opens a new one and
resets the pending-write counter to zero. -/
theorem flush_quota_exact (rw : ReadWriter α) :
    (rw.s.limitReached = true →
      rw.Flush = (.error (.flushWrap .limitReached), rw)) ∧
    ((rw.Flush).1 = .error (.flushWrap .limitReached) → rw.s.limitReached = true) ∧
    (rw.s.limitReached = false → rw.s.db.commitFails = false →
      rw.Flush = (.ok (), { rw with
        s := { rw.s with db := { rw.s.db with
          committed := rw.txn.pending.foldl applyOp rw.s.db.committed } },
        txn := ⟨[]⟩, pendingWrites := 0 })) := by
  refine ⟨fun h => by simp [ReadWriter.Flush, h], fun h => ?_, fun hq hc => flush_ok rw hq hc⟩
  by_cases hq : rw.s.limitReached = true
  · exact hq
  · exfalso
    simp only [Bool.not_eq_true] at hq
    cases hc : rw.s.db.commitFails with
    | false =>
      rw [flush_ok rw hq hc] at h
      simp at h
    | true =>
      rw [flush_commit_error_lemma rw hq hc] at h
      simp at h

/-- C1 witness: a storage with configured limit 1 and reported size 1 has
its limit reached, and `Flush` returns the wrapped quota error leaving the
ReadWriter untouched. -/
theorem flush_quota_exact_witness :
    ((New (⟨[], 1, 0, false, none⟩ : DB) natCodec 0 1).NewReadWriter.s.limitReached = true) ∧
    ((New (⟨[], 1, 0, false, none⟩ : DB) natCodec 0 1).NewReadWriter.Flush =
      (.error (.flushWrap .limitReached),
        (New (⟨[], 1, 0, false, none⟩ : DB) natCodec 0 1).NewReadWriter)) :=
  ⟨by decide, (flush_quota_exact _).1 (by decide)⟩

/-- C9: when the quota check passes but the engine commit fails, `Flush`
returns the wrapped commit error yet still opens a fresh transaction and
resets the pending-write counter to zero; the storage handle (and thus the
committed store) is unchanged, so the buffered writes are discarded. -/
theorem flush_commit_error_resets (rw : ReadWriter α)
    (hq : rw.s.limitReached = false) (hc : rw.s.db.commitFails = true) :
    rw.Flush = (.error (.flushWrap .commitFailed),
      { rw with txn := ⟨[]⟩, pendingWrites := 0 }) :=
  flush_commit_error_lemma rw hq hc

/-- C9 witness: a ReadWriter with one buffered write against an engine whose
commit fails: `Flush` errs but resets the transaction and the counter. -/
theorem flush_commit_error_resets_witness :
    (let rw : ReadWriter Nat :=
      ⟨New (⟨[], 0, 0, true, none⟩ : DB) natCodec 0 0,
        ⟨[PendingOp.setEntry [1] [2] 101 0]⟩, [], 1⟩
     rw.s.limitReached = false ∧ rw.s.db.commitFails = true ∧
     rw.Flush = (.error (.flushWrap .commitFailed),
       { rw with txn := ⟨[]⟩, pendingWrites := 0 })) :=
  ⟨by decide, by decide, flush_commit_error_resets _ (by decide) (by decide)⟩

/-- C6 counterexample: for `limitBytes = 3` the stored effective limit is 2,
which is not equal to 90 percent of 3. -/
theorem new_limit_not_exact_ninety :
    (New (freshDB 0 0 none) natCodec 0 3).limit = 2 ∧
    ((New (freshDB 0 0 none) natCodec 0 3).limit : ℚ) ≠ 9 / 10 * 3 := by
  have h : (New (freshDB 0 0 none) natCodec 0 3).limit = 2 := by decide
  refine ⟨h, ?_⟩
  rw [h]
  norm_num

/-- C6 (amended): `New` stores 90 percent of `limitBytes` rounded down
(truncated) whenever `limitBytes > 1`; a `limitBytes` of 0 yields unlimited
storage (`limitReached` is always false); and a `limitBytes` of exactly 1
is stored unmodified, bypassing the 90 percent margin. -/
theorem new_limit_effective (db : DB) (codec : Codec α) (ttl limit : Int) :
    (1 < limit →
      10 * (New db codec ttl limit).limit ≤ 9 * limit ∧
      9 * limit < 10 * ((New db codec ttl limit).limit + 1)) ∧
    (limit = 0 → (New db codec ttl limit).limit = 0 ∧
      (New db codec ttl limit).limitReached = false) ∧
    (limit = 1 → (New db codec ttl limit).limit = 1) := by
  refine ⟨fun h => ?_, fun h => ?_, fun h => ?_⟩
  · simp only [New, if_pos h]
    omega
  · subst h
    exact ⟨by simp [New], by simp [New, Storage.limitReached]⟩
  · subst h
    simp [New]

/-- C6 witness: for `limitBytes = 20` the stored limit is 90 percent of 20
rounded down. -/
theorem new_limit_effective_witness :
    (1 : Int) < 20 ∧
    (10 * (New (freshDB 0 0 none) natCodec 0 20).limit ≤ 9 * 20 ∧
     9 * 20 < 10 * ((New (freshDB 0 0 none) natCodec 0 20).limit + 1)) :=
  ⟨by decide, (new_limit_effective (freshDB 0 0 none) natCodec 0 20).1 (by decide)⟩

/-- Once the pending-write counter is at the threshold, `writeEntryRest`
always records at least one flush call. -/
theorem writeEntryRest_flushCalls_pos (rw : ReadWriter α) (err1 : Option Err)
    (key value : Bytes) (meta : Nat) (ttl : Int) (h : 200 ≤ rw.pendingWrites) :
    1 ≤ (rw.writeEntryRest err1 key value meta ttl).2.2.flushCalls := by
  unfold ReadWriter.writeEntryRest
  simp only [if_pos h]
  rcases hF : rw.Flush with ⟨r, rwF⟩
  cases r with
  | error e => simp
  | ok u =>
    cases err1 with
    | none => simp
    | some e =>
      by_cases he : e = Err.txnTooBig
      · simp only [he, if_pos rfl, eq_self_iff_true, if_true]
        rcases hF2 : rwF.Flush with ⟨r2, rwF2⟩
        cases r2 with
        | error e2 => simp
        | ok u2 =>
          rcases hS : rwF2.txn.setEntry rwF2.s.db key value meta ttl with e3 | txn' <;>
            simp [hS]
      · simp only [if_neg he]
        simp

/-- `writeEntryRest` never records more than two `SetEntry` attempts. -/
theorem writeEntryRest_attempts_le (rw : ReadWriter α) (err1 : Option Err)
    (key value : Bytes) (meta : Nat) (ttl : Int) :
    (rw.writeEntryRest err1 key value meta ttl).2.2.setEntryAttempts ≤ 2 := by
  unfold ReadWriter.writeEntryRest
  by_cases hauto : 200 ≤ rw.pendingWrites <;>
    [simp only [if_pos hauto]; simp only [if_neg hauto]]
  · rcases hF : rw.Flush with ⟨r, rwF⟩
    cases r with
    | error e => simp
    | ok u =>
      cases err1 with
      | none => simp
      | some e =>
        by_cases he : e = Err.txnTooBig
        · simp only [he, if_pos rfl, eq_self_iff_true, if_true]
          rcases hF2 : rwF.Flush with ⟨r2, rwF2⟩
          cases r2 with
          | error e2 => simp
          | ok u2 =>
            rcases hS : rwF2.txn.setEntry rwF2.s.db key value meta ttl with e3 | txn' <;>
              simp [hS]
        · simp only [if_neg he]
          simp
  · cases err1 with
    | none => simp
    | some e =>
      by_cases he : e = Err.txnTooBig
      · simp only [he, if_pos rfl, eq_self_iff_true, if_true]
        rcases hF2 : rw.Flush with ⟨r2, rwF2⟩
        cases r2 with
        | error e2 => simp
        | ok u2 =>
          rcases hS : rwF2.txn.setEntry rwF2.s.db key value meta ttl with e3 | txn' <;>
            simp [hS]
      · simp only [if_neg he]
        simp

/-- C5: `writeEntry` increments the pending-write counter; when the write
is accepted below the threshold of 200 nothing else happens (no flush);
once the incremented counter reaches 200 a flush is attempted before the
call returns; consequently a successful write never leaves more than 199
pending writes behind. -/
theorem writeEntry_pending_counter (rw : ReadWriter α) (key value : Bytes)
    (meta : Nat) (ttl : Int) :
    (∀ txn', rw.txn.setEntry rw.s.db key value meta ttl = .ok txn' →
      rw.pendingWrites + 1 < 200 →
      rw.writeEntry key value meta ttl =
        (.ok (), { rw with txn := txn', pendingWrites := rw.pendingWrites + 1 }, ⟨1, 0⟩)) ∧
    (200 ≤ rw.pendingWrites + 1 →
      1 ≤ (rw.writeEntry key value meta ttl).2.2.flushCalls) ∧
    (rw.pendingWrites ≤ 199 → (rw.writeEntry key value meta ttl).1 = .ok () →
      (rw.writeEntry key value meta ttl).2.1.pendingWrites ≤ 199) := by
  refine ⟨fun txn' hset hcnt => writeEntry_ok_small rw key value meta ttl txn' hset hcnt,
    fun hcnt => ?_, fun hpre hok => ?_⟩
  · rcases h : rw.txn.setEntry rw.s.db key value meta ttl with e | txn'
    · have heq : rw.writeEntry key value meta ttl =
          ReadWriter.writeEntryRest { rw with pendingWrites := rw.pendingWrites + 1 }
            (some e) key value meta ttl := by
        simp [ReadWriter.writeEntry, h]
      rw [heq]
      exact writeEntryRest_flushCalls_pos _ _ _ _ _ _ (by simpa using hcnt)
    · have heq : rw.writeEntry key value meta ttl =
          ReadWriter.writeEntryRest { rw with txn := txn', pendingWrites := rw.pendingWrites + 1 }
            none key value meta ttl := by
        simp [ReadWriter.writeEntry, h]
      rw [heq]
      exact writeEntryRest_flushCalls_pos _ _ _ _ _ _ (by simpa using hcnt)
  · rcases h : rw.txn.setEntry rw.s.db key value meta ttl with e | txn'
    · have heq : rw.writeEntry key value meta ttl =
          ReadWriter.writeEntryRest { rw with pendingWrites := rw.pendingWrites + 1 }
            (some e) key value meta ttl := by
        simp [ReadWriter.writeEntry, h]
      rw [heq] at hok ⊢
      rcases writeEntryRest_ok_pending _ _ _ _ _ _ hok with ⟨h1, h2⟩ | h1
      · simp only at h1 h2
        omega
      · omega
    · have heq : rw.writeEntry key value meta ttl =
          ReadWriter.writeEntryRest { rw with txn := txn', pendingWrites := rw.pendingWrites + 1 }
            none key value meta ttl := by
        simp [ReadWriter.writeEntry, h]
      rw [heq] at hok ⊢
      rcases writeEntryRest_ok_pending _ _ _ _ _ _ hok with ⟨h1, h2⟩ | h1
      · simp only at h1 h2
        omega
      · omega

/-- C5 witness: a first write is accepted without a flush and bumps the
counter to 1; a write that takes the counter to 200 records a flush. -/
theorem writeEntry_pending_counter_witness :
    (let rw := (New (freshDB 0 0 none) natCodec 0 0).NewReadWriter
     (rw.txn.setEntry rw.s.db [1] [2] 101 0 = .ok ⟨[PendingOp.setEntry [1] [2] 101 0]⟩) ∧
     (0 : Nat) + 1 < 200 ∧
     rw.writeEntry [1] [2] 101 0 =
       (.ok (), { rw with txn := ⟨[PendingOp.setEntry [1] [2] 101 0]⟩, pendingWrites := 1 }, ⟨1, 0⟩)) ∧
    (200 ≤ 199 + 1 ∧
     1 ≤ (({ (New (freshDB 0 0 none) natCodec 0 0).NewReadWriter with pendingWrites := 199 } : ReadWriter Nat).writeEntry [1] [2] 101 0).2.2.flushCalls) :=
  ⟨⟨rfl, by decide,
      (writeEntry_pending_counter ((New (freshDB 0 0 none) natCodec 0 0).NewReadWriter)
        [1] [2] 101 0).1 _ rfl (by decide)⟩,
    by decide,
    (writeEntry_pending_counter
        ({ (New (freshDB 0 0 none) natCodec 0 0).NewReadWriter with pendingWrites := 199 })
        [1] [2] 101 0).2.1 (by decide)⟩

/-- C4: `writeEntry` (used by both `WriteTraceSampled` and
`WriteTraceEvent`) never attempts `SetEntry` more than twice in one call;
and when the initial `SetEntry` is rejected with the transaction-too-big
error (below the auto-flush threshold, with the flush succeeding), the
writer flushes once and retries that single entry against the new
transaction, returning the retry's outcome to the caller — in particular a
second too-big rejection is returned, not retried again. -/
theorem writeEntry_tooBig_retry_once (rw : ReadWriter α) (key value : Bytes)
    (meta : Nat) (ttl : Int) :
    ((rw.writeEntry key value meta ttl).2.2.setEntryAttempts ≤ 2) ∧
    (rw.txn.setEntry rw.s.db key value meta ttl = .error .txnTooBig →
     rw.pendingWrites + 1 < 200 →
     rw.s.limitReached = false →
     rw.s.db.commitFails = false →
     rw.writeEntry key value meta ttl =
       (let rwF := (({ rw with pendingWrites := rw.pendingWrites + 1 } : ReadWriter α).Flush).2
        match rwF.txn.setEntry rwF.s.db key value meta ttl with
        | .ok txn' => (.ok (), { rwF with txn := txn' }, ⟨2, 1⟩)
        | .error e3 => (.error e3, rwF, ⟨2, 1⟩))) := by
  constructor
  · rcases h : rw.txn.setEntry rw.s.db key value meta ttl with e | txn'
    · have heq : rw.writeEntry key value meta ttl =
          ReadWriter.writeEntryRest { rw with pendingWrites := rw.pendingWrites + 1 }
            (some e) key value meta ttl := by
        simp [ReadWriter.writeEntry, h]
      rw [heq]
      exact writeEntryRest_attempts_le _ _ _ _ _ _
    · have heq : rw.writeEntry key value meta ttl =
          ReadWriter.writeEntryRest { rw with txn := txn', pendingWrites := rw.pendingWrites + 1 }
            none key value meta ttl := by
        simp [ReadWriter.writeEntry, h]
      rw [heq]
      exact writeEntryRest_attempts_le _ _ _ _ _ _
  · intro h1 h2 hq hc
    have hn : ¬ 200 ≤ rw.pendingWrites + 1 := Nat.not_le.mpr h2
    have hFl := flush_ok ({ rw with pendingWrites := rw.pendingWrites + 1 } : ReadWriter α)
      (by simpa using hq) (by simpa using hc)
    have heq : rw.writeEntry key value meta ttl =
        ReadWriter.writeEntryRest { rw with pendingWrites := rw.pendingWrites + 1 }
          (some .txnTooBig) key value meta ttl := by
      simp [ReadWriter.writeEntry, h1]
    rw [heq]
    unfold ReadWriter.writeEntryRest
    simp [hFl, hn]

/-- C4 witness: with an engine whose transactions hold no entry at all,
the first `SetEntry` is rejected as too big, the writer flushes and
retries exactly once, and the second rejection is returned to the caller
with two recorded attempts and one flush. -/
theorem writeEntry_tooBig_retry_once_witness :
    (let rw := (New (freshDB 0 0 (some 0)) natCodec 0 0).NewReadWriter
     (rw.txn.setEntry rw.s.db [1] [2] 101 0 = .error .txnTooBig) ∧
     (0 : Nat) + 1 < 200 ∧ rw.s.limitReached = false ∧ rw.s.db.commitFails = false ∧
     rw.writeEntry [1] [2] 101 0 = (.error .txnTooBig, rw, ⟨2, 1⟩)) :=
  ⟨rfl, by decide, by decide, rfl, by
    simpa using (writeEntry_tooBig_retry_once
      ((New (freshDB 0 0 (some 0)) natCodec 0 0).NewReadWriter) [1] [2] 101 0).2
      rfl (by decide) (by decide) rfl⟩

/-- C7: after `WriteTraceSampled(T, s)` (accepted below the auto-flush
threshold), `IsTraceSampled(T)` on the same ReadWriter returns `(s, nil)`
both before any flush (read-your-own-writes in the open transaction) and
after a successful flush. -/
theorem writeTraceSampled_visibility (rw : ReadWriter α) (T : Bytes) (sampled : Bool)
    (hmax : rw.s.db.maxTxnOps = none)
    (hcnt : rw.pendingWrites + 1 < 200)
    (hq : rw.s.limitReached = false)
    (hcf : rw.s.db.commitFails = false) :
    ((rw.WriteTraceSampled T sampled).1 = .ok ()) ∧
    (((rw.WriteTraceSampled T sampled).2.1.IsTraceSampled T).1 = .ok sampled) ∧
    (((rw.WriteTraceSampled T sampled).2.1.Flush).1 = .ok ()) ∧
    ((((rw.WriteTraceSampled T sampled).2.1.Flush).2.IsTraceSampled T).1 = .ok sampled) := by
  have hset : rw.txn.setEntry rw.s.db T [] (if sampled then entryMetaTraceSampled else entryMetaTraceUnsampled) rw.s.ttl = .ok ⟨rw.txn.pending ++ [PendingOp.setEntry T [] (if sampled then entryMetaTraceSampled else entryMetaTraceUnsampled) rw.s.ttl]⟩ := by
    simp [Txn.setEntry, hmax]
  have hw : rw.WriteTraceSampled T sampled =
      (.ok (), { rw with txn := ⟨rw.txn.pending ++ [PendingOp.setEntry T [] (if sampled then entryMetaTraceSampled else entryMetaTraceUnsampled) rw.s.ttl]⟩, pendingWrites := rw.pendingWrites + 1 }, ⟨1, 0⟩) := by
    unfold ReadWriter.WriteTraceSampled
    exact writeEntry_ok_small rw T [] _ rw.s.ttl _ hset hcnt
  have hfl := flush_ok ({ rw with txn := ⟨rw.txn.pending ++ [PendingOp.setEntry T [] (if sampled then entryMetaTraceSampled else entryMetaTraceUnsampled) rw.s.ttl]⟩, pendingWrites := rw.pendingWrites + 1 } : ReadWriter α) (by simpa using hq) (by simpa using hcf)
  refine ⟨by rw [hw], ?_, ?_, ?_⟩
  · rw [hw]
    cases sampled <;>
      simp [ReadWriter.IsTraceSampled, Txn.get, lastPendingFor_concat, PendingOp.key,
        entryMetaTraceSampled, entryMetaTraceUnsampled]
  · rw [hw]
    simp [hfl]
  · rw [hw]
    cases sampled <;> simp [entryMetaTraceSampled, entryMetaTraceUnsampled] at hfl <;>
      simp [hfl, ReadWriter.IsTraceSampled, Txn.get, Txn.lastPendingFor,
        applyOp, lookupCommitted, entryMetaTraceSampled, entryMetaTraceUnsampled]

/-- C7 witness: from a fresh store, writing the sampled decision for trace
`[7]` is visible both before and after flush. -/
theorem writeTraceSampled_visibility_witness :
    (let rw := (New (freshDB 0 0 none) natCodec 0 0).NewReadWriter
     rw.s.db.maxTxnOps = none ∧ (0 : Nat) + 1 < 200 ∧ rw.s.limitReached = false ∧
     rw.s.db.commitFails = false ∧
     ((rw.WriteTraceSampled [7] true).2.1.IsTraceSampled [7]).1 = .ok true ∧
     (((rw.WriteTraceSampled [7] true).2.1.Flush).2.IsTraceSampled [7]).1 = .ok true) :=
  ⟨rfl, by decide, rfl, rfl,
    (writeTraceSampled_visibility ((New (freshDB 0 0 none) natCodec 0 0).NewReadWriter)
      [7] true rfl (by decide) rfl rfl).2.1,
    (writeTraceSampled_visibility ((New (freshDB 0 0 none) natCodec 0 0).NewReadWriter)
      [7] true rfl (by decide) rfl rfl).2.2.2⟩

/-- C8 counterexample: write an event for trace `[97]` with event ID `[98]`
(no sampling decision is ever recorded), then look up the composite key
`[97, 58, 98]` as a trace ID: `IsTraceSampled` returns `(false, nil)`, not
the not-found error, although no decision record exists for that ID. -/
theorem isTraceSampled_event_key_counterexample :
    (let w := (New (freshDB 0 0 none) natCodec 0 0).NewReadWriter.WriteTraceEvent [97] [98] 7
     w.1 = .ok () ∧
     (w.2.1.IsTraceSampled [97, 58, 98]).1 = .ok false ∧
     (w.2.1.IsTraceSampled [97, 58, 98]).1 ≠ .error .notFound) :=
  ⟨rfl, rfl, fun h => Except.noConfusion h⟩

/-- C8 (amended): for every trace ID under whose key the open transaction
buffers no operation and the committed store holds no live (unexpired)
entry of any kind, `IsTraceSampled` returns the dedicated `ErrNotFound`,
never a generic engine error and never `(false, nil)`. -/
theorem isTraceSampled_notFound (rw : ReadWriter α) (T : Bytes)
    (hp : rw.txn.lastPendingFor T = none)
    (hc : ∀ it, lookupCommitted rw.s.db.committed T = some it → it.expired = true) :
    (rw.IsTraceSampled T).1 = .error .notFound := by
  simp only [ReadWriter.IsTraceSampled, Txn.get]
  rcases hlook : lookupCommitted rw.s.db.committed T with _ | it
  · simp [hp, hlook]
  · have hexp := hc it hlook
    simp [hp, hlook, hexp]

/-- C8 witness: on a fresh ReadWriter over an empty store, looking up the
unwritten trace ID `[5]` yields the not-found error. -/
theorem isTraceSampled_notFound_witness :
    ((New (freshDB 0 0 none) natCodec 0 0).NewReadWriter.txn.lastPendingFor [5] = none) ∧
    (((New (freshDB 0 0 none) natCodec 0 0).NewReadWriter.IsTraceSampled [5]).1 = .error .notFound) :=
  ⟨rfl, isTraceSampled_notFound ((New (freshDB 0 0 none) natCodec 0 0).NewReadWriter) [5]
    rfl (fun _ h => Option.noConfusion h)⟩

/-- A byte string is a prefix of itself followed by anything. -/
theorem isPrefixOf_self_append (l r : Bytes) : l.isPrefixOf (l ++ r) = true := by
  induction l with
  | nil => cases r <;> rfl
  | cons a t ihl => simp [List.isPrefixOf, ihl]

/-- The scan prefix of a trace is a prefix of each of its event keys. -/
theorem pfx_isPrefixOf_eventKey (T id : Bytes) :
    (T ++ [eventKeySeparator]).isPrefixOf (eventKey T id) = true := by
  have h : eventKey T id = (T ++ [eventKeySeparator]) ++ id := by
    simp [eventKey]
  rw [h]
  exact isPrefixOf_self_append _ _

/-- Reading the trace events of `T` from a committed store holding exactly
one live event entry of `T` yields exactly that event. -/
theorem readTraceEvents_single (s : Storage α) (T id data : Bytes) (t : Int) (e : α)
    (buf : Bytes) (n : Nat)
    (hcom : s.db.committed = [(eventKey T id, ⟨data, entryMetaTraceEvent, t, false⟩)])
    (hdec : s.codec.decodeEvent data = .ok e) :
    ((ReadWriter.ReadTraceEvents ⟨s, ⟨[]⟩, buf, n⟩ T []).1 = .ok ()) ∧
    ((ReadWriter.ReadTraceEvents ⟨s, ⟨[]⟩, buf, n⟩ T []).2.1 = [e]) := by
  unfold ReadWriter.ReadTraceEvents
  simp [iterKeys, hcom, mergedGet, Txn.lastPendingFor, lookupCommitted,
    pfx_isPrefixOf_eventKey, readEventsLoop, hdec, sortKeys, insertByLt]

/-- C2: on a fresh store (quota not reached), writing an event whose codec
encoding succeeds and round-trips, then flushing and reading the trace's
events, returns a batch holding exactly that one event, decoded equal to
the original. -/
theorem writeTraceEvent_roundTrip (codec : Codec α) (T id : Bytes) (e : α) (data : Bytes)
    (lsm vlog ttl limit : Int)
    (henc : codec.encodeEvent e = .ok data)
    (hdec : codec.decodeEvent data = .ok e)
    (hq : (New (freshDB lsm vlog none) codec ttl limit).limitReached = false) :
    (let w := (New (freshDB lsm vlog none) codec ttl limit).NewReadWriter.WriteTraceEvent T id e
     w.1 = .ok () ∧
     (w.2.1.Flush).1 = .ok () ∧
     ((w.2.1.Flush).2.ReadTraceEvents T []).1 = .ok () ∧
     ((w.2.1.Flush).2.ReadTraceEvents T []).2.1 = [e]) := by
  intro w
  have hset : (New (freshDB lsm vlog none) codec ttl limit).NewReadWriter.txn.setEntry
      (New (freshDB lsm vlog none) codec ttl limit).NewReadWriter.s.db (eventKey T id) data
      entryMetaTraceEvent (New (freshDB lsm vlog none) codec ttl limit).NewReadWriter.s.ttl =
      .ok ⟨[PendingOp.setEntry (eventKey T id) data entryMetaTraceEvent ttl]⟩ := by
    simp [Txn.setEntry, New, Storage.NewReadWriter, freshDB]
  have h1 : w = (.ok (), { s := New (freshDB lsm vlog none) codec ttl limit, txn := ⟨[PendingOp.setEntry (eventKey T id) data entryMetaTraceEvent ttl]⟩, readKeyBuf := [], pendingWrites := 1 }, ⟨1, 0⟩) := by
    show (New (freshDB lsm vlog none) codec ttl limit).NewReadWriter.WriteTraceEvent T id e = _
    simp only [ReadWriter.WriteTraceEvent, Storage.NewReadWriter, New, henc]
    exact writeEntry_ok_small _ _ _ _ _ _ hset (show 0 + 1 < 200 by decide)
  have hfl := flush_ok ({ s := New (freshDB lsm vlog none) codec ttl limit, txn := ⟨[PendingOp.setEntry (eventKey T id) data entryMetaTraceEvent ttl]⟩, readKeyBuf := [], pendingWrites := 1 } : ReadWriter α) (by simpa using hq) (by simp [New, freshDB])
  have hread := readTraceEvents_single
    ({ (New (freshDB lsm vlog none) codec ttl limit) with db := { (freshDB lsm vlog none) with committed := [(eventKey T id, ⟨data, entryMetaTraceEvent, ttl, false⟩)] } } : Storage α)
    T id data ttl e [] 0 (by simp [New, freshDB]) (by simpa using hdec)
  refine ⟨by rw [h1], ?_, ?_, ?_⟩
  · rw [h1]
    simp [hfl]
  · rw [h1]
    simp only [hfl]
    simpa [New, freshDB, applyOp, eraseCommitted] using hread.1
  · rw [h1]
    simp only [hfl]
    simpa [New, freshDB, applyOp, eraseCommitted] using hread.2

/-- C2 witness: trace `[1]`, event ID `[2]`, event `5` with the concrete
codec round-trips through a fresh store. -/
theorem writeTraceEvent_roundTrip_witness :
    natCodec.encodeEvent 5 = .ok [5] ∧ natCodec.decodeEvent [5] = .ok 5 ∧
    (New (freshDB 0 0 none) natCodec 0 0).limitReached = false ∧
    (let w := (New (freshDB 0 0 none) natCodec 0 0).NewReadWriter.WriteTraceEvent [1] [2] 5
     w.1 = .ok () ∧
     (w.2.1.Flush).1 = .ok () ∧
     ((w.2.1.Flush).2.ReadTraceEvents [1] []).1 = .ok () ∧
     ((w.2.1.Flush).2.ReadTraceEvents [1] []).2.1 = [5]) :=
  ⟨rfl, rfl, rfl,
    writeTraceEvent_roundTrip natCodec [1] [2] 5 [5] 0 0 0 0 rfl rfl rfl⟩

/-- When two trace IDs differ and neither contains the separator byte, the
scan prefix of one is never a byte prefix of an event key of the other. -/
theorem isPrefixOf_cross_false (T2 : Bytes) : ∀ (T1 : Bytes), T1 ≠ T2 →
    eventKeySeparator ∉ T1 → eventKeySeparator ∉ T2 →
    ∀ id, (T2 ++ [eventKeySeparator]).isPrefixOf (eventKey T1 id) = false := by
  induction T2 with
  | nil =>
    intro T1 hne h1 h2 id
    cases T1 with
    | nil => exact absurd rfl hne
    | cons a t1 =>
      have ha : ¬ (eventKeySeparator = a) := fun h => h1 (by rw [h]; exact List.mem_cons_self _ _)
      rw [show eventKey (a :: t1) id = a :: eventKey t1 id from by simp [eventKey],
        List.nil_append]
      simp [List.isPrefixOf, ha]
  | cons b t2 ih =>
    intro T1 hne h1 h2 id
    cases T1 with
    | nil =>
      have hb : ¬ (b = eventKeySeparator) := fun h => h2 (by rw [← h]; exact List.mem_cons_self _ _)
      rw [show eventKey ([] : Bytes) id = eventKeySeparator :: id from by simp [eventKey],
        List.cons_append]
      simp [List.isPrefixOf, hb]
    | cons a t1 =>
      rw [show eventKey (a :: t1) id = a :: eventKey t1 id from by simp [eventKey],
        List.cons_append]
      by_cases hba : b = a
      · have htail := ih t1 (fun hEq => hne (by rw [hEq, hba]))
          (fun hm => h1 (List.mem_cons_of_mem _ hm))
          (fun hm => h2 (List.mem_cons_of_mem _ hm)) id
        simp [List.isPrefixOf, htail]
      · simp [List.isPrefixOf, hba]

/-- C3 (amended): for distinct trace IDs neither of which contains the
separator byte, an event written for `T1` on a fresh store is never
returned by `ReadTraceEvents T2`, neither from the open transaction before
flush nor from the committed store after a successful flush. -/
theorem traceEvent_isolation (codec : Codec α) (T1 T2 id : Bytes) (e : α) (data : Bytes)
    (lsm vlog ttl limit : Int)
    (hne : T1 ≠ T2)
    (h1 : eventKeySeparator ∉ T1) (h2 : eventKeySeparator ∉ T2)
    (henc : codec.encodeEvent e = .ok data)
    (hq : (New (freshDB lsm vlog none) codec ttl limit).limitReached = false) :
    (let w := (New (freshDB lsm vlog none) codec ttl limit).NewReadWriter.WriteTraceEvent T1 id e
     ((w.2.1.ReadTraceEvents T2 []).1 = .ok () ∧ (w.2.1.ReadTraceEvents T2 []).2.1 = []) ∧
     ((w.2.1.Flush).1 = .ok ()) ∧
     (((w.2.1.Flush).2.ReadTraceEvents T2 []).1 = .ok () ∧
       ((w.2.1.Flush).2.ReadTraceEvents T2 []).2.1 = [])) := by
  intro w
  have hiso := isPrefixOf_cross_false T2 T1 hne h1 h2 id
  have hset : (New (freshDB lsm vlog none) codec ttl limit).NewReadWriter.txn.setEntry
      (New (freshDB lsm vlog none) codec ttl limit).NewReadWriter.s.db (eventKey T1 id) data
      entryMetaTraceEvent (New (freshDB lsm vlog none) codec ttl limit).NewReadWriter.s.ttl =
      .ok ⟨[PendingOp.setEntry (eventKey T1 id) data entryMetaTraceEvent ttl]⟩ := by
    simp [Txn.setEntry, New, Storage.NewReadWriter, freshDB]
  have hwrt : w = (.ok (), { s := New (freshDB lsm vlog none) codec ttl limit, txn := ⟨[PendingOp.setEntry (eventKey T1 id) data entryMetaTraceEvent ttl]⟩, readKeyBuf := [], pendingWrites := 1 }, ⟨1, 0⟩) := by
    show (New (freshDB lsm vlog none) codec ttl limit).NewReadWriter.WriteTraceEvent T1 id e = _
    simp only [ReadWriter.WriteTraceEvent, Storage.NewReadWriter, New, henc]
    exact writeEntry_ok_small _ _ _ _ _ _ hset (show 0 + 1 < 200 by decide)
  have hfl := flush_ok ({ s := New (freshDB lsm vlog none) codec ttl limit, txn := ⟨[PendingOp.setEntry (eventKey T1 id) data entryMetaTraceEvent ttl]⟩, readKeyBuf := [], pendingWrites := 1 } : ReadWriter α) (by simpa using hq) (by simp [New, freshDB])
  refine ⟨?_, by rw [hwrt]; simp [hfl], ?_⟩
  · rw [hwrt]
    constructor <;>
      simp [ReadWriter.ReadTraceEvents, iterKeys, hiso, New, freshDB, sortKeys,
        readEventsLoop, PendingOp.key]
  · rw [hwrt]
    simp only [hfl]
    constructor <;>
      simp [ReadWriter.ReadTraceEvents, iterKeys, hiso, New, freshDB, sortKeys,
        readEventsLoop, applyOp, eraseCommitted, PendingOp.key]

/-- C3 counterexample: with trace IDs that may contain the separator byte,
isolation fails: the event written for trace `[97, 58]` (with empty event
ID) is returned by `ReadTraceEvents [97]`, although the trace IDs differ. -/
theorem traceEvent_isolation_counterexample :
    (([97, 58] : Bytes) ≠ [97]) ∧
    (let w := (New (freshDB 0 0 none) natCodec 0 0).NewReadWriter.WriteTraceEvent [97, 58] [] 7
     ((w.2.1.Flush).2.ReadTraceEvents [97] []).2.1 = [7]) :=
  ⟨by decide, by decide⟩

/-- C3 witness: distinct separator-free trace IDs `[1]` and `[2]`: the
event written for `[1]` is invisible to `ReadTraceEvents [2]` both before
and after flush. -/
theorem traceEvent_isolation_witness :
    (([1] : Bytes) ≠ [2]) ∧ eventKeySeparator ∉ ([1] : Bytes) ∧ eventKeySeparator ∉ ([2] : Bytes) ∧
    natCodec.encodeEvent 5 = .ok [5] ∧
    (New (freshDB 0 0 none) natCodec 0 0).limitReached = false ∧
    (let w := (New (freshDB 0 0 none) natCodec 0 0).NewReadWriter.WriteTraceEvent [1] [] 5
     ((w.2.1.ReadTraceEvents [2] []).2.1 = ([] : List Nat)) ∧
     (((w.2.1.Flush).2.ReadTraceEvents [2] []).2.1 = ([] : List Nat))) :=
  ⟨by decide, by decide, by decide, rfl, rfl,
    (traceEvent_isolation natCodec [1] [2] [] 5 [5] 0 0 0 0 (by decide) (by decide)
      (by decide) rfl rfl).1.2,
    (traceEvent_isolation natCodec [1] [2] [] 5 [5] 0 0 0 0 (by decide) (by decide)
      (by decide) rfl rfl).2.2.2⟩

/-- One `DeleteTraceEvent` call: counter, storage handle and read buffer
unchanged; the transaction either gains exactly the one deletion mark or
(too-big rejection) stays unchanged; the result is success or the too-big
error — never a flush, commit or quota error. -/
theorem deleteTraceEvent_step (rw : ReadWriter α) (t i : Bytes) :
    ((rw.DeleteTraceEvent t i).2.pendingWrites = rw.pendingWrites) ∧
    ((rw.DeleteTraceEvent t i).2.s = rw.s) ∧
    ((rw.DeleteTraceEvent t i).2.readKeyBuf = rw.readKeyBuf) ∧
    ((rw.DeleteTraceEvent t i).2.txn.pending = rw.txn.pending ∨
      (rw.DeleteTraceEvent t i).2.txn.pending =
        rw.txn.pending ++ [PendingOp.delete (eventKey t i)]) ∧
    ((rw.DeleteTraceEvent t i).1 = .ok () ∨ (rw.DeleteTraceEvent t i).1 = .error .txnTooBig) := by
  unfold ReadWriter.DeleteTraceEvent Txn.deleteKey
  rcases hm : rw.s.db.maxTxnOps with _ | m
  · simp
  · by_cases hlen : m ≤ rw.txn.pending.length <;> simp [hlen]

/-- C10: any number of consecutive `DeleteTraceEvent` calls leaves the
pending-write counter, the storage handle (hence the committed store: no
flush, no commit, no quota check) and the read key buffer unchanged; the
open transaction only gains deletion marks; and each call returns either
success or the engine's too-big error, never a flush or quota error. -/
theorem deleteTraceEvent_frame (rw : ReadWriter α) (l : List (Bytes × Bytes)) :
    ((applyDeletes rw l).pendingWrites = rw.pendingWrites) ∧
    ((applyDeletes rw l).s = rw.s) ∧
    ((applyDeletes rw l).readKeyBuf = rw.readKeyBuf) ∧
    (∃ ds : List PendingOp, (applyDeletes rw l).txn.pending = rw.txn.pending ++ ds ∧
      ∀ op ∈ ds, ∃ k, op = PendingOp.delete k) ∧
    (∀ t i, (rw.DeleteTraceEvent t i).1 = .ok () ∨
      (rw.DeleteTraceEvent t i).1 = .error .txnTooBig) := by
  induction l generalizing rw with
  | nil =>
    exact ⟨rfl, rfl, rfl, ⟨[], by simp [applyDeletes], by simp⟩,
      fun t i => (deleteTraceEvent_step rw t i).2.2.2.2⟩
  | cons p rest ih =>
    obtain ⟨t, i⟩ := p
    have hstep := deleteTraceEvent_step rw t i
    have hih := ih ((rw.DeleteTraceEvent t i).2)
    have hdef : applyDeletes rw ((t, i) :: rest) =
        applyDeletes (rw.DeleteTraceEvent t i).2 rest := rfl
    refine ⟨?_, ?_, ?_, ?_, fun t' i' => (deleteTraceEvent_step rw t' i').2.2.2.2⟩
    · rw [hdef, hih.1, hstep.1]
    · rw [hdef, hih.2.1, hstep.2.1]
    · rw [hdef, hih.2.2.1, hstep.2.2.1]
    · obtain ⟨ds', hds', hall'⟩ := hih.2.2.2.1
      rcases hstep.2.2.2.1 with hsame | happ
      · exact ⟨ds', by rw [hdef, hds', hsame], hall'⟩
      · refine ⟨PendingOp.delete (eventKey t i) :: ds', ?_, ?_⟩
        · rw [hdef, hds', happ]
          simp
        · intro op hop
          rcases List.mem_cons.mp hop with h | h
          · exact ⟨_, h⟩
          · exact hall' op h

/-- C10 witness: two consecutive deletions on a fresh ReadWriter leave the
counter and the storage handle unchanged. -/
theorem deleteTraceEvent_frame_witness :
    ((applyDeletes ((New (freshDB 0 0 none) natCodec 0 0).NewReadWriter)
        [([1], [2]), ([1], [3])]).pendingWrites =
      ((New (freshDB 0 0 none) natCodec 0 0).NewReadWriter).pendingWrites) ∧
    ((applyDeletes ((New (freshDB 0 0 none) natCodec 0 0).NewReadWriter)
        [([1], [2]), ([1], [3])]).s =
      ((New (freshDB 0 0 none) natCodec 0 0).NewReadWriter).s) :=
  ⟨(deleteTraceEvent_frame ((New (freshDB 0 0 none) natCodec 0 0).NewReadWriter)
      [([1], [2]), ([1], [3])]).1,
    (deleteTraceEvent_frame ((New (freshDB 0 0 none) natCodec 0 0).NewReadWriter)
      [([1], [2]), ([1], [3])]).2.1⟩

end EventStorage
